import Mathlib

/-!
Verification of the RTF-to-QTI converter (`src/main.py`).

The Python source is shallowly embedded over `List Char` / `String`:
pure string functions become Lean functions, the regular expressions
used by the source are hand-translated into explicit scanners (the
patterns involved never need backtracking, as argued at each
definition), and the two exceptions the parser can raise
(`ValueError`, `IndexError`) are modelled by an explicit error type.
Character-class tests (`\d`, `\s`, `str.strip`, `str.splitlines`) are
modelled over the code points Python uses for them (ASCII plus the
usual Unicode whitespace/line-break points).
-/

namespace RTFQTI

/-- Code points accepted by Python `str.strip()` / regex `\s`
(whitespace, including the Unicode white space characters). -/
def isPySpace (c : Char) : Bool :=
  decide (c.toNat = 32 ∨ c.toNat = 9 ∨ c.toNat = 10 ∨ c.toNat = 11 ∨ c.toNat = 12 ∨
    c.toNat = 13 ∨ c.toNat = 28 ∨ c.toNat = 29 ∨ c.toNat = 30 ∨ c.toNat = 31 ∨
    c.toNat = 133 ∨ c.toNat = 160 ∨ c.toNat = 5760 ∨
    (8192 ≤ c.toNat ∧ c.toNat ≤ 8202) ∨ c.toNat = 8232 ∨ c.toNat = 8233 ∨
    c.toNat = 8239 ∨ c.toNat = 8287 ∨ c.toNat = 12288)

/-- Line boundaries recognized by Python `str.splitlines()`. -/
def isLB (c : Char) : Bool :=
  decide (c.toNat = 10 ∨ c.toNat = 11 ∨ c.toNat = 12 ∨ c.toNat = 13 ∨
    c.toNat = 28 ∨ c.toNat = 29 ∨ c.toNat = 30 ∨ c.toNat = 133 ∨
    c.toNat = 8232 ∨ c.toNat = 8233)

/-- Python `str.strip()`: drop leading and trailing whitespace. -/
def stripL (cs : List Char) : List Char :=
  ((cs.dropWhile isPySpace).reverse.dropWhile isPySpace).reverse

/-- Prepend a character to the first line of a line list (used by the
line splitters below to build the current line). -/
def consHead (c : Char) : List (List Char) → List (List Char)
  | [] => [[c]]
  | l :: ls => (c :: l) :: ls

/-- Python `str.splitlines()`: split at every line-boundary character,
treating a `"\r\n"` pair as a single boundary; a trailing boundary
does not produce a final empty line. -/
def splitlinesL : List Char → List (List Char)
  | [] => []
  | [c] => if isLB c then [[]] else [[c]]
  | c :: c2 :: rest =>
    if isLB c then
      if c = '\r' ∧ c2 = '\n' then [] :: splitlinesL rest
      else [] :: splitlinesL (c2 :: rest)
    else consHead c (splitlinesL (c2 :: rest))

/-- Join lines with single newlines (Python `"\n".join`). -/
def joinNL : List (List Char) → List Char
  | [] => []
  | [l] => l
  | l :: ls => l ++ '\n' :: joinNL ls

/-- The line filter of `clean_text`: keep a line when it is nonempty
and is not the literal artifact `"d"`. -/
def keepLine (l : List Char) : Bool :=
  !l.isEmpty && l != ['d']

/-- The surviving lines of `clean_text`: split, strip each line,
discard empty lines and `"d"` lines. -/
def cleanLines (cs : List Char) : List (List Char) :=
  ((splitlinesL cs).map stripL).filter keepLine

/-- `clean_text` from `src/main.py` on character lists. -/
def clean_textL (cs : List Char) : List Char :=
  joinNL (cleanLines cs)

/-- `clean_text` from `src/main.py` (the Text Normalizer). -/
def clean_text (t : String) : String :=
  String.mk (clean_textL t.data)

deriving instance DecidableEq for Except

/-- The exceptions `parse_questions` can raise: the explicit
`ValueError` for a missing answer, and the `IndexError` from the
unguarded `opts[0]` access. -/
inductive PyErr where
  | valueError (msg : String)
  | indexError
deriving DecidableEq, Repr

/-- The `MCQ` dataclass of `src/main.py`.  The `options` dict is
modelled as an insertion-ordered association list (Python dict
semantics: an update keeps the key's position, see `dictInsert`). -/
structure MCQ where
  num : Nat
  stem : String
  options : List (Char × String)
  answer : Char
deriving DecidableEq, Repr

/-- ASCII `\d` (Python matches Unicode digits too; the source's inputs
are ASCII question labels). -/
def isDigitC (c : Char) : Bool := 48 ≤ c.toNat && c.toNat ≤ 57

/-- The numeric value of a digit string, as Python `int()`. -/
def natOfDigits (ds : List Char) : Nat :=
  ds.foldl (fun n c => 10 * n + (c.toNat - 48)) 0

/-- Split a list at the first occurrence of `pat`
(`some (before, after)`), as Python `s.split(pat, 1)` when `pat`
occurs. -/
def splitFirst (pat : List Char) : List Char → Option (List Char × List Char)
  | [] => if pat.isEmpty then some ([], []) else none
  | c :: rest =>
    if pat.isPrefixOf (c :: rest) then some ([], (c :: rest).drop pat.length)
    else
      match splitFirst pat rest with
      | some p => some (c :: p.1, p.2)
      | none => none

/-- Whether `pat` occurs as a contiguous substring. -/
def containsSub (pat cs : List Char) : Bool :=
  (splitFirst pat cs).isSome

/-- Step 1 of `parse_questions`: if `"MULTIPLE CHOICE"` occurs, keep
only the text after its first occurrence. -/
def dropPreamble (cs : List Char) : List Char :=
  match splitFirst "MULTIPLE CHOICE".data cs with
  | some p => p.2
  | none => cs

/-- Zero or more digits followed by a literal period. -/
def afterDigitsDot : List Char → Bool
  | [] => false
  | c :: rest => if isDigitC c then afterDigitsDot rest else c = '.'

/-- The lookahead `(?=\d+\.)` of the block-splitting pattern. -/
def lookNumDot : List Char → Bool
  | [] => false
  | c :: rest => isDigitC c && afterDigitsDot rest

/-- `re.split(r"\n(?=\d+\.)", s)`: split at every newline that is
immediately followed by digits and a period (the newline is consumed,
the lookahead is not). -/
def splitBlocksGo : List Char → List (List Char)
  | [] => [[]]
  | c :: rest =>
    if c = '\n' ∧ lookNumDot rest then [] :: splitBlocksGo rest
    else consHead c (splitBlocksGo rest)

/-- The block list of `parse_questions`: preamble dropped, then split
on the question-number boundaries of `"\n" + text`. -/
def blocksOf (cs : List Char) : List (List Char) :=
  splitBlocksGo ('\n' :: dropPreamble cs)

/-- `re.match(r"(\d+)\.\n(.*)", block, re.S)`: a leading nonempty
digit run, a period, a newline, and the rest as the body.  The digit
run is maximal, which agrees with the regex (a shorter `\d+` leaves a
digit where the period is required, so backtracking cannot succeed). -/
def matchNumDot (cs : List Char) : Option (Nat × List Char) :=
  match cs.drop (cs.takeWhile isDigitC).length with
  | c1 :: c2 :: body =>
    if cs.takeWhile isDigitC ≠ [] ∧ c1 = '.' ∧ c2 = '\n' then
      some (natOfDigits (cs.takeWhile isDigitC), body)
    else none
  | _ => none

/-- A match of `ANS:\s*([A-D])` anchored at the head of the list:
the literal marker, a maximal whitespace run, then an uppercase
letter A-D (code points 65-68).  Maximal `\s*` agrees with the regex:
giving back whitespace leaves a whitespace character where `[A-D]` is
required. -/
def ansHere (cs : List Char) : Option Char :=
  match cs with
  | c1 :: c2 :: c3 :: c4 :: rest =>
    if c1 = 'A' ∧ c2 = 'N' ∧ c3 = 'S' ∧ c4 = ':' then
      match (rest.dropWhile isPySpace).head? with
      | some c => if 65 ≤ c.toNat ∧ c.toNat ≤ 68 then some c else none
      | none => none
    else none
  | _ => none

/-- `re.search(r"ANS:\s*([A-D])", body)`: the captured letter of the
leftmost match. -/
def findAns : List Char → Option Char
  | [] => none
  | c :: rest =>
    match ansHere (c :: rest) with
    | some a => some a
    | none => findAns rest

/-- `body.split("ANS:", 1)[0]`: truncate at the first occurrence of
the literal `"ANS:"`. -/
def truncAns (cs : List Char) : List Char :=
  match splitFirst "ANS:".data cs with
  | some p => p.1
  | none => cs

/-- ASCII `[a-d]` (code points 97-100). -/
def isOptLetter (c : Char) : Bool := 97 ≤ c.toNat && c.toNat ≤ 100

/-- A match of `\n([a-d])\.\s+` anchored at the head: newline, option
letter, period, then a nonempty maximal whitespace run (greedy `\s+`;
nothing follows it in the pattern, so no backtracking).  Returns the
letter and the text after the match. -/
def optHere (cs : List Char) : Option (Char × List Char) :=
  match cs with
  | c1 :: l :: c2 :: w :: rest =>
    if c1 = '\n' ∧ isOptLetter l ∧ c2 = '.' ∧ isPySpace w then
      some (l, rest.dropWhile isPySpace)
    else none
  | _ => none

/-- Fuelled scan implementing `re.finditer(r"\n([a-d])\.\s+", s)`:
returns the text before the first match, and for each match (in
order) its captured letter together with the text between the end of
that match and the start of the next (or the end of the input).  Each
step consumes at least one character, so fuel `cs.length` (see
`scanOpts`) is never exhausted. -/
def scanOptsF : Nat → List Char → List Char × List (Char × List Char)
  | 0, cs => (cs, [])
  | _ + 1, [] => ([], [])
  | n + 1, c :: rest =>
    match optHere (c :: rest) with
    | some (l, after) =>
      let p := scanOptsF n after
      ([], (l, p.1) :: p.2)
    | none =>
      let p := scanOptsF n rest
      (c :: p.1, p.2)

/-- The option-marker scan of `parse_questions` (steps 3d-3f). -/
def scanOpts (cs : List Char) : List Char × List (Char × List Char) :=
  scanOptsF cs.length cs

/-- `re.sub(r"\n+", " ", s)`: collapse every maximal newline run to a
single space. -/
def collapseNlGo : Bool → List Char → List Char
  | _, [] => []
  | inRun, c :: rest =>
    if c = '\n' then
      if inRun then collapseNlGo true rest else ' ' :: collapseNlGo true rest
    else c :: collapseNlGo false rest

/-- `re.sub(r"\n+", " ", s)` from the start of the list. -/
def collapseNl (cs : List Char) : List Char := collapseNlGo false cs

/-- Python dict assignment `d[k] = v`: an existing key keeps its
position and gets the new value; a new key is appended. -/
def dictInsert (k : Char) (v : String) : List (Char × String) → List (Char × String)
  | [] => [(k, v)]
  | p :: rest => if p.1 = k then (k, v) :: rest else p :: dictInsert k v rest

/-- The text of one option: `re.sub(r"\n+", " ", span).strip()`. -/
def procOptVal (seg : List Char) : String := String.mk (stripL (collapseNl seg))

/-- The options dict built by the loop over the option matches. -/
def buildOptions (segs : List (Char × List Char)) : List (Char × String) :=
  segs.foldl (fun d p => dictInsert p.1 (procOptVal p.2) d) []

/-- Steps 3b-3f of `parse_questions` for one matched block: find the
answer (raising `ValueError` when absent), truncate the body at
`"ANS:"`, scan for option markers over `"\n" + body` (raising
`IndexError` via `opts[0]` when there are none), and build the
record. -/
def parseBody (num : Nat) (body : List Char) : Except PyErr MCQ :=
  match findAns body with
  | none => .error (.valueError ("Missing ANS for question " ++ toString num))
  | some a =>
    if (scanOpts ('\n' :: truncAns body)).2 = [] then .error .indexError
    else .ok ⟨num, String.mk (collapseNl (stripL (scanOpts ('\n' :: truncAns body)).1)),
              buildOptions (scanOpts ('\n' :: truncAns body)).2, a.toLower⟩

/-- One iteration of the block loop of `parse_questions`: `none` when
the stripped block is empty or does not match `(\d+)\.\n(.*)`
(silently skipped), otherwise the outcome of parsing its body. -/
def parseBlock (block : List Char) : Option (Except PyErr MCQ) :=
  if (stripL block).isEmpty then none
  else
    match matchNumDot (stripL block) with
    | none => none
    | some p => some (parseBody p.1 p.2)

/-- The block loop of `parse_questions`: records in block order; the
first raised exception aborts the whole parse. -/
def processBlocks : List (List Char) → Except PyErr (List MCQ)
  | [] => .ok []
  | b :: rest =>
    match parseBlock b with
    | none => processBlocks rest
    | some (.error e) => .error e
    | some (.ok q) => (processBlocks rest).map (fun qs => q :: qs)

/-- `parse_questions` from `src/main.py` (the Question Parser). -/
def parse_questions (text : String) : Except PyErr (List MCQ) :=
  processBlocks (blocksOf text.data)

/-! ### Markup Stripper (`rtf_to_text`) -/

/-- The left-brace character (written by code point so that no brace
appears inside a literal). -/
def lbrace : Char := Char.ofNat 123

/-- The right-brace character. -/
def rbrace : Char := Char.ofNat 125

/-- ASCII `[0-9a-fA-F]`. -/
def isHexDigitC (c : Char) : Bool :=
  (48 ≤ c.toNat && c.toNat ≤ 57) || (97 ≤ c.toNat && c.toNat ≤ 102) ||
    (65 ≤ c.toNat && c.toNat ≤ 70)

/-- The value of one hex digit. -/
def hexVal (c : Char) : Nat :=
  if c.toNat ≤ 57 then c.toNat - 48
  else if 97 ≤ c.toNat then c.toNat - 87
  else c.toNat - 55

/-- Step 1 of `rtf_to_text`: `re.sub(r"\\'([0-9a-fA-F]{2})", ...)` —
replace a backslash-apostrophe-two-hex-digits escape by the byte
decoded as Latin-1 (i.e. the code point of the byte value; the
apostrophe is code point 39). -/
def hexEscapes : List Char → List Char
  | [] => []
  | c :: q :: h1 :: h2 :: rest2 =>
    if c = '\\' ∧ q = Char.ofNat 39 ∧ isHexDigitC h1 ∧ isHexDigitC h2 then
      Char.ofNat (16 * hexVal h1 + hexVal h2) :: hexEscapes rest2
    else c :: hexEscapes (q :: h1 :: h2 :: rest2)
  | c :: rest => c :: hexEscapes rest

/-- Fuelled Python `str.replace(pat, rep)`: every non-overlapping
occurrence, left to right.  Each step consumes at least one input
character (all patterns used are nonempty), so fuel `cs.length`
suffices. -/
def replaceAllF : Nat → List Char → List Char → List Char → List Char
  | 0, _, _, cs => cs
  | _ + 1, _, _, [] => []
  | n + 1, pat, rep, c :: rest =>
    if pat.isPrefixOf (c :: rest) then
      rep ++ replaceAllF n pat rep ((c :: rest).drop pat.length)
    else c :: replaceAllF n pat rep rest

/-- Python `str.replace(pat, rep)` for nonempty `pat`. -/
def replaceAll (pat rep cs : List Char) : List Char :=
  replaceAllF cs.length pat rep cs

/-- A match of `{\*[^{}]*}` anchored at the head: the opening brace,
backslash, star, then a maximal brace-free run, then the closing
brace.  Greedy `[^{}]*` agrees with the regex: giving back characters
leaves a non-brace character where `}` is required.  Returns the text
after the match. -/
def matchStar (cs : List Char) : Option (List Char) :=
  match cs with
  | a :: b :: c :: rest =>
    if a = lbrace ∧ b = '\\' ∧ c = '*' then
      let inner := rest.takeWhile (fun x => x != lbrace && x != rbrace)
      match rest.drop inner.length with
      | d :: rest2 => if d = rbrace then some rest2 else none
      | [] => none
    else none
  | _ => none

/-- Fuelled `re.sub(r"{\\\*[^{}]*}", "", s)` (step 4 of
`rtf_to_text`): delete every non-overlapping match, scanning left to
right.  A match consumes at least four characters, so fuel
`cs.length` suffices. -/
def removeStarGroupsF : Nat → List Char → List Char
  | 0, cs => cs
  | _ + 1, [] => []
  | n + 1, c :: rest =>
    match matchStar (c :: rest) with
    | some rest2 => removeStarGroupsF n rest2
    | none => c :: removeStarGroupsF n rest

/-- Step 4 of `rtf_to_text`: remove extended/non-rendering groups. -/
def removeStarGroups (cs : List Char) : List Char :=
  removeStarGroupsF cs.length cs

/-- ASCII `[a-zA-Z]`. -/
def isAsciiLetter (c : Char) : Bool :=
  (97 ≤ c.toNat && c.toNat ≤ 122) || (65 ≤ c.toNat && c.toNat ≤ 90)

/-- Fuelled `re.sub(r"\\[a-zA-Z]+-?\d* ?", "", s)` (step 5): remove a
backslash followed by a maximal letter run, an optional minus, a
maximal digit run, and one optional space.  All parts are greedy with
nothing after them, so no backtracking arises. -/
def removeControlWordsF : Nat → List Char → List Char
  | 0, cs => cs
  | _ + 1, [] => []
  | n + 1, c :: rest =>
    if c = '\\' then
      let ls := rest.takeWhile isAsciiLetter
      if ls.isEmpty then c :: removeControlWordsF n rest
      else
        let r1 := rest.drop ls.length
        let r2 := if r1.head? = some '-' then r1.tail else r1
        let r3 := r2.dropWhile isDigitC
        let r4 := if r3.head? = some ' ' then r3.tail else r3
        removeControlWordsF n r4
    else c :: removeControlWordsF n rest

/-- Step 5 of `rtf_to_text`: remove remaining control words. -/
def removeControlWords (cs : List Char) : List Char :=
  removeControlWordsF cs.length cs

/-- Fuelled `re.sub(r"\n{3,}", "\n\n", s)` (step 7): a maximal run of
three or more newlines becomes exactly two. -/
def collapseNewlines3F : Nat → List Char → List Char
  | 0, cs => cs
  | _ + 1, [] => []
  | n + 1, c :: rest =>
    if c = '\n' then
      let run := rest.takeWhile (fun x => x == '\n')
      let rest2 := rest.drop run.length
      (if 2 ≤ run.length then ['\n', '\n'] else c :: run) ++ collapseNewlines3F n rest2
    else c :: collapseNewlines3F n rest

/-- Step 7 of `rtf_to_text`. -/
def collapseNewlines3 (cs : List Char) : List Char :=
  collapseNewlines3F cs.length cs

/-- `rtf_to_text` from `src/main.py` (the Markup Stripper), taken
from the decoded text onward: the source first decodes the input
bytes with `decode("utf-8", errors="ignore")`; the argument here is
that decoded text, and steps 1-8 are applied in source order. -/
def rtf_to_text (s : String) : String :=
  let s1 := hexEscapes s.data
  let s2 := replaceAll "\\line".data "\n".data (replaceAll "\\par".data "\n".data s1)
  let s3 := replaceAll "\\\\".data "\\".data
      (replaceAll ('\\' :: [rbrace]) [rbrace]
        (replaceAll ('\\' :: [lbrace]) [lbrace] s2))
  let s4 := removeStarGroups s3
  let s5 := removeControlWords s4
  let s6 := s5.filter (fun c => c != lbrace && c != rbrace)
  let s7 := collapseNewlines3 s6
  String.mk (stripL s7)

/-! ### Package Serializer (`esc`, `write_qti21`) -/

/-- `html.escape(s, quote=False)`: ampersand first, then the angle
brackets, and no quote escaping. -/
def esc (s : String) : String :=
  String.mk (replaceAll ">".data "&gt;".data
    (replaceAll "<".data "&lt;".data
      (replaceAll "&".data "&amp;".data s.data)))

/-- The QTI namespace constant of `src/main.py`. -/
def QTI_NS : String := "http://www.imsglobal.org/xsd/imsqti_v2p1"

/-- The response-processing template constant of `src/main.py`. -/
def RP_MATCH_CORRECT : String :=
  "http://www.imsglobal.org/question/qti_v2p1/rptemplates/match_correct"

/-- Python `f"{n:03d}"` for a natural number: zero-pad to width 3. -/
def pad3 (n : Nat) : String :=
  let s := toString n
  if s.length < 3 then String.mk (List.replicate (3 - s.length) '0') ++ s else s

/-- `item_id = f"Q{q.num:03d}"`. -/
def itemId (q : MCQ) : String := "Q" ++ pad3 q.num

/-- `rel = f"items/{item_id}.xml"`. -/
def itemRel (q : MCQ) : String := "items/" ++ itemId q ++ ".xml"

/-- The `item_files` list of `write_qti21`: one relative path per
question, in question order. -/
def write_item_files (qs : List MCQ) : List String := qs.map itemRel

/-- Insert into a key-sorted list of options (key ascending). -/
def insertByKey (p : Char × String) : List (Char × String) → List (Char × String)
  | [] => [p]
  | q :: rest => if p.1.toNat ≤ q.1.toNat then p :: q :: rest else q :: insertByKey p rest

/-- Python `sorted(q.options.items())`: the dict's keys are distinct,
so sorting the pairs orders them by key. -/
def sortedOpts (l : List (Char × String)) : List (Char × String) :=
  l.foldr insertByKey []

/-- One `simpleChoice` line of the item document. -/
def choiceLine (p : Char × String) : String :=
  "      <simpleChoice identifier=\"CHOICE_" ++ String.mk [p.1.toUpper] ++ "\">" ++
    esc p.2 ++ "</simpleChoice>"

/-- The `item_xml` line list of `write_qti21` for one question. -/
def item_xml (q : MCQ) : List String :=
  ["<?xml version=\"1.0\" encoding=\"UTF-8\"?>",
   "<assessmentItem xmlns=\"" ++ QTI_NS ++ "\" identifier=\"" ++ itemId q ++
     "\" title=\"Question " ++ toString q.num ++ "\" adaptive=\"false\" timeDependent=\"false\">",
   "  <responseDeclaration identifier=\"RESPONSE\" cardinality=\"single\" baseType=\"identifier\">",
   "    <correctResponse><value>CHOICE_" ++ String.mk [q.answer.toUpper] ++ "</value></correctResponse>",
   "  </responseDeclaration>",
   "  <itemBody>",
   "    <choiceInteraction responseIdentifier=\"RESPONSE\" maxChoices=\"1\">",
   "      <prompt>" ++ esc q.stem ++ "</prompt>"]
  ++ (sortedOpts q.options).map choiceLine
  ++ ["    </choiceInteraction>",
      "  </itemBody>",
      "  <responseProcessing template=\"" ++ RP_MATCH_CORRECT ++ "\"/>",
      "</assessmentItem>"]

/-- The `test_xml` line list of `write_qti21`: header, one
`assessmentItemRef` per item file in `write_item_files` order, then
the footer. -/
def test_xml (qs : List MCQ) (title : String) : List String :=
  ["<?xml version=\"1.0\" encoding=\"UTF-8\"?>",
   "<assessmentTest xmlns=\"" ++ QTI_NS ++ "\" identifier=\"TEST1\" title=\"" ++
     esc title ++ "\">",
   "  <testPart identifier=\"part1\" navigationMode=\"linear\" submissionMode=\"individual\">",
   "    <assessmentSection identifier=\"section1\" visible=\"true\">"]
  ++ (write_item_files qs).map
      (fun f => "      <assessmentItemRef href=\"" ++ f ++ "\"/>")
  ++ ["    </assessmentSection>", "  </testPart>", "</assessmentTest>"]

/-! ### Lemmas about the Text Normalizer -/

lemma head?_dropWhile_not (p : Char → Bool) (l : List Char) {c : Char}
    (h : (l.dropWhile p).head? = some c) : p c = false := by
  induction l with
  | nil => simp [List.dropWhile] at h
  | cons a l ih =>
    rw [List.dropWhile_cons] at h
    split at h
    · exact ih h
    · next hpa =>
      simp only [List.head?_cons, Option.some.injEq] at h
      subst h
      simpa using hpa

lemma dropWhile_head_not {p : Char → Bool} {l : List Char}
    (h : ∀ c, l.head? = some c → p c = false) : l.dropWhile p = l := by
  cases l with
  | nil => rfl
  | cons a l => rw [List.dropWhile_cons, h a rfl]; simp

lemma stripL_idem (l : List Char) : stripL (stripL l) = stripL l := by
  unfold stripL
  set a := l.dropWhile isPySpace with ha
  set b := a.reverse.dropWhile isPySpace with hb
  have haHead : ∀ c, a.head? = some c → isPySpace c = false := by
    intro c hc; exact head?_dropWhile_not isPySpace l hc
  have h1 : b.reverse.dropWhile isPySpace = b.reverse := by
    apply dropWhile_head_not
    intro c hc
    obtain ⟨t, ht⟩ := List.dropWhile_suffix (l := a.reverse) (p := isPySpace)
    have ha2 : a = b.reverse ++ t.reverse := by
      have h3 := congrArg List.reverse ht
      simp only [List.reverse_append, List.reverse_reverse] at h3
      rw [← hb] at h3
      exact h3.symm
    cases hbr : b.reverse with
    | nil => rw [hbr] at hc; simp at hc
    | cons y ys =>
      rw [hbr] at hc
      simp only [List.head?_cons, Option.some.injEq] at hc
      subst hc
      apply haHead
      rw [ha2, hbr]; rfl
  have h2 : b.dropWhile isPySpace = b := by
    apply dropWhile_head_not
    intro c hc
    exact head?_dropWhile_not isPySpace a.reverse (hb ▸ hc)
  rw [h1, List.reverse_reverse, h2]

lemma mem_stripL {c : Char} {l : List Char} (h : c ∈ stripL l) : c ∈ l := by
  unfold stripL at h
  rw [List.mem_reverse] at h
  have h1 : c ∈ (l.dropWhile isPySpace).reverse :=
    (List.dropWhile_suffix isPySpace).sublist.subset h
  rw [List.mem_reverse] at h1
  exact (List.dropWhile_suffix isPySpace).sublist.subset h1

lemma consHead_mem {l : List Char} {c : Char} {ls : List (List Char)}
    (h : l ∈ consHead c ls) :
    (∃ t, l = c :: t ∧ (t ∈ ls ∨ t = [])) ∨ l ∈ ls := by
  cases ls with
  | nil =>
    simp only [consHead, List.mem_singleton] at h
    exact Or.inl ⟨[], h, Or.inr rfl⟩
  | cons l0 ls' =>
    simp only [consHead, List.mem_cons] at h
    rcases h with h | h
    · exact Or.inl ⟨l0, h, Or.inl (by simp)⟩
    · exact Or.inr (by simp [h])

lemma splitlinesL_noLB : ∀ (cs : List Char), ∀ l ∈ splitlinesL cs, ∀ c ∈ l, isLB c = false := by
  intro cs
  induction cs using splitlinesL.induct with
  | case1 => intro l hl; simp [splitlinesL] at hl
  | case2 c hLB =>
    intro l hl c' hc'
    simp only [splitlinesL, if_pos hLB, List.mem_singleton] at hl
    subst hl; simp at hc'
  | case3 c hLB =>
    intro l hl c' hc'
    simp only [splitlinesL, if_neg hLB, List.mem_singleton] at hl
    subst hl
    simp only [List.mem_singleton] at hc'
    subst hc'
    simpa using hLB
  | case4 c c2 rest hLB hrn ih =>
    intro l hl c' hc'
    rw [splitlinesL, if_pos hLB, if_pos hrn] at hl
    simp only [List.mem_cons] at hl
    rcases hl with h | h
    · subst h; simp at hc'
    · exact ih l h c' hc'
  | case5 c c2 rest hLB hrn ih =>
    intro l hl c' hc'
    rw [splitlinesL, if_pos hLB, if_neg hrn] at hl
    simp only [List.mem_cons] at hl
    rcases hl with h | h
    · subst h; simp at hc'
    · exact ih l h c' hc'
  | case6 c c2 rest hLB ih =>
    intro l hl c' hc'
    rw [splitlinesL, if_neg hLB] at hl
    rcases consHead_mem hl with ⟨t, rfl, ht⟩ | h
    · simp only [List.mem_cons] at hc'
      rcases hc' with rfl | hc'
      · simpa using hLB
      · rcases ht with ht | rfl
        · exact ih _ ht c' hc'
        · simp at hc'
    · exact ih l h c' hc'

lemma splitlinesL_append_newline (l rest : List Char)
    (hl : ∀ c ∈ l, isLB c = false) :
    splitlinesL (l ++ '\n' :: rest) = l :: splitlinesL rest := by
  induction l with
  | nil =>
    cases rest with
    | nil => decide
    | cons c2 r2 =>
      show splitlinesL ('\n' :: c2 :: r2) = [] :: splitlinesL (c2 :: r2)
      rw [splitlinesL, if_pos (by decide)]
      have : ¬('\n' = '\r' ∧ c2 = '\n') := by
        rintro ⟨h, -⟩; exact absurd h (by decide)
      rw [if_neg this]
  | cons c l ih =>
    have hc : isLB c = false := hl c (by simp)
    have hl2 : ∀ x ∈ l, isLB x = false := fun x hx => hl x (by simp [hx])
    have hcons : (c :: l) ++ '\n' :: rest = c :: (l ++ '\n' :: rest) := rfl
    rw [hcons]
    cases hll : l ++ '\n' :: rest with
    | nil => simp at hll
    | cons d ds =>
      rw [splitlinesL, if_neg (by simp [hc])]
      rw [← hll, ih hl2]
      rfl

lemma splitlinesL_noLB_single (l : List Char) (hne : l ≠ [])
    (hl : ∀ c ∈ l, isLB c = false) : splitlinesL l = [l] := by
  induction l with
  | nil => exact absurd rfl hne
  | cons c l ih =>
    have hc : isLB c = false := hl c (by simp)
    cases l with
    | nil => simp [splitlinesL, hc]
    | cons c2 r =>
      rw [splitlinesL, if_neg (by simp [hc])]
      rw [ih (by simp) (fun x hx => hl x (by simp [hx]))]
      rfl

lemma splitlinesL_joinNL (ls : List (List Char))
    (h : ∀ l ∈ ls, (∀ c ∈ l, isLB c = false) ∧ l ≠ []) :
    splitlinesL (joinNL ls) = ls := by
  induction ls with
  | nil => rfl
  | cons l ls ih =>
    cases ls with
    | nil => exact splitlinesL_noLB_single l (h l (by simp)).2 (h l (by simp)).1
    | cons l2 ls2 =>
      have hj : joinNL (l :: l2 :: ls2) = l ++ '\n' :: joinNL (l2 :: ls2) := rfl
      rw [hj, splitlinesL_append_newline l _ (h l (by simp)).1,
        ih (fun x hx => h x (by simp [hx]))]

lemma mem_cleanLines {cs l} (h : l ∈ cleanLines cs) :
    (∃ l0 ∈ splitlinesL cs, l = stripL l0) ∧ l ≠ [] ∧ l ≠ ['d'] := by
  unfold cleanLines at h
  rw [List.mem_filter] at h
  obtain ⟨hmem, hkeep⟩ := h
  rw [List.mem_map] at hmem
  obtain ⟨l0, hl0, rfl⟩ := hmem
  refine ⟨⟨l0, hl0, rfl⟩, ?_, ?_⟩
  · simp only [keepLine, Bool.and_eq_true, Bool.not_eq_true', List.isEmpty_eq_false] at hkeep
    exact hkeep.1
  · simp only [keepLine, Bool.and_eq_true, bne_iff_ne, ne_eq] at hkeep
    exact hkeep.2

lemma splitlinesL_clean_textL (cs : List Char) :
    splitlinesL (clean_textL cs) = cleanLines cs := by
  apply splitlinesL_joinNL
  intro l hl
  obtain ⟨⟨l0, hl0, rfl⟩, hne, -⟩ := mem_cleanLines hl
  exact ⟨fun c hc => splitlinesL_noLB cs l0 hl0 c (mem_stripL hc), hne⟩

lemma map_stripL_self (ls : List (List Char)) (h : ∀ l ∈ ls, stripL l = l) :
    ls.map stripL = ls := by
  induction ls with
  | nil => rfl
  | cons l ls ih =>
    simp only [List.map_cons, h l (by simp), ih (fun x hx => h x (by simp [hx]))]

lemma clean_textL_idem (cs : List Char) :
    clean_textL (clean_textL cs) = clean_textL cs := by
  show joinNL (cleanLines (clean_textL cs)) = clean_textL cs
  have h2 : (cleanLines cs).map stripL = cleanLines cs := by
    apply map_stripL_self
    intro l hl
    obtain ⟨⟨l0, -, rfl⟩, -, -⟩ := mem_cleanLines hl
    exact stripL_idem l0
  have h3 : (cleanLines cs).filter keepLine = cleanLines cs := by
    rw [List.filter_eq_self]
    intro l hl
    unfold cleanLines at hl
    exact (List.mem_filter.mp hl).2
  have h1 : cleanLines (clean_textL cs) = cleanLines cs := by
    calc cleanLines (clean_textL cs)
        = ((splitlinesL (clean_textL cs)).map stripL).filter keepLine := rfl
      _ = ((cleanLines cs).map stripL).filter keepLine := by
          rw [splitlinesL_clean_textL]
      _ = (cleanLines cs).filter keepLine := by rw [h2]
      _ = cleanLines cs := h3
  rw [h1]; rfl

/-- C7: the Text Normalizer is idempotent, and its output contains no
blank line and no line equal to `"d"`. -/
theorem clean_text_idempotent_no_garbage (t : String) :
    clean_text (clean_text t) = clean_text t ∧
    ∀ l ∈ splitlinesL (clean_text t).data, l ≠ [] ∧ l ≠ ['d'] := by
  constructor
  · show String.mk (clean_textL (String.mk (clean_textL t.data)).data) = _
    exact congrArg String.mk (clean_textL_idem t.data)
  · intro l hl
    have hd : (clean_text t).data = clean_textL t.data := rfl
    rw [hd, splitlinesL_clean_textL] at hl
    obtain ⟨-, h1, h2⟩ := mem_cleanLines hl
    exact ⟨h1, h2⟩

/-- Witness for `clean_text_idempotent_no_garbage` at a concrete
input and line. -/
theorem clean_text_idempotent_no_garbage_witness :
    (clean_text (clean_text "  a \n\n d \nd\n b ") = clean_text "  a \n\n d \nd\n b ") ∧
    (['a'] ≠ ([] : List Char) ∧ ['a'] ≠ ['d']) :=
  ⟨(clean_text_idempotent_no_garbage "  a \n\n d \nd\n b ").1,
   (clean_text_idempotent_no_garbage "  a \n\n d \nd\n b ").2 ['a'] (by decide)⟩

/-! ### Lemmas about the Question Parser -/

lemma stripL_isEmpty_false_of_match {b : List Char} {n : Nat} {body : List Char}
    (hm : matchNumDot (stripL b) = some (n, body)) : (stripL b).isEmpty = false := by
  cases h : stripL b with
  | nil => rw [h] at hm; simp [matchNumDot] at hm
  | cons c cs => rfl

lemma parseBlock_of_match {b : List Char} {n : Nat} {body : List Char}
    (hm : matchNumDot (stripL b) = some (n, body)) :
    parseBlock b = some (parseBody n body) := by
  unfold parseBlock
  rw [stripL_isEmpty_false_of_match hm, hm]
  simp

lemma parseBody_missing {num : Nat} {body : List Char} (hans : findAns body = none) :
    parseBody num body = .error (.valueError ("Missing ANS for question " ++ toString num)) := by
  unfold parseBody; rw [hans]

lemma parseBody_some {num : Nat} {body : List Char} {a : Char}
    (ha : findAns body = some a) :
    parseBody num body =
      if (scanOpts ('\n' :: truncAns body)).2 = [] then .error .indexError
      else .ok ⟨num, String.mk (collapseNl (stripL (scanOpts ('\n' :: truncAns body)).1)),
                buildOptions (scanOpts ('\n' :: truncAns body)).2, a.toLower⟩ := by
  unfold parseBody; rw [ha]

lemma parseBody_noOpts {num : Nat} {body : List Char} {a : Char}
    (ha : findAns body = some a)
    (hopts : (scanOpts ('\n' :: truncAns body)).2 = []) :
    parseBody num body = .error .indexError := by
  rw [parseBody_some ha, if_pos hopts]

lemma parseBody_ok_inv {num : Nat} {body : List Char} {r : MCQ}
    (h : parseBody num body = .ok r) :
    ∃ a, findAns body = some a ∧
      r = ⟨num, String.mk (collapseNl (stripL (scanOpts ('\n' :: truncAns body)).1)),
           buildOptions (scanOpts ('\n' :: truncAns body)).2, a.toLower⟩ := by
  cases hfa : findAns body with
  | none => rw [parseBody_missing hfa] at h; simp at h
  | some a =>
    rw [parseBody_some hfa] at h
    by_cases hsc : (scanOpts ('\n' :: truncAns body)).2 = []
    · rw [if_pos hsc] at h; simp at h
    · rw [if_neg hsc] at h
      simp only [Except.ok.injEq] at h
      exact ⟨a, rfl, h.symm⟩

lemma parseBlock_ok_inv {b : List Char} {r : MCQ}
    (h : parseBlock b = some (.ok r)) :
    ∃ n body, matchNumDot (stripL b) = some (n, body) ∧ parseBody n body = .ok r := by
  unfold parseBlock at h
  by_cases he : (stripL b).isEmpty
  · rw [if_pos he] at h; simp at h
  · rw [if_neg he] at h
    cases hm : matchNumDot (stripL b) with
    | none => rw [hm] at h; simp at h
    | some p =>
      rw [hm] at h
      simp only [Option.some.injEq] at h
      exact ⟨p.1, p.2, rfl, h⟩

lemma processBlocks_mem {bs : List (List Char)} {qs : List MCQ} {r : MCQ}
    (h : processBlocks bs = .ok qs) (hr : r ∈ qs) :
    ∃ b ∈ bs, parseBlock b = some (.ok r) := by
  induction bs generalizing qs with
  | nil =>
    simp only [processBlocks, Except.ok.injEq] at h
    subst h; simp at hr
  | cons b bs ih =>
    rw [processBlocks] at h
    cases hpb : parseBlock b with
    | none =>
      rw [hpb] at h
      obtain ⟨b', hb', h'⟩ := ih h hr
      exact ⟨b', by simp [hb'], h'⟩
    | some res =>
      cases res with
      | error e => rw [hpb] at h; simp at h
      | ok q =>
        rw [hpb] at h
        cases hbs : processBlocks bs with
        | error e => rw [hbs] at h; simp [Except.map] at h
        | ok qs' =>
          rw [hbs] at h
          simp only [Except.map, Except.ok.injEq] at h
          subst h
          rcases List.mem_cons.mp hr with rfl | hr
          · exact ⟨b, by simp, by rw [hpb]⟩
          · obtain ⟨b', hb', h'⟩ := ih hbs hr
            exact ⟨b', by simp [hb'], h'⟩

lemma processBlocks_append_error {pre : List (List Char)} {b : List Char}
    {post : List (List Char)} {e : PyErr}
    (hb : parseBlock b = some (.error e))
    (hpre : ∀ b' ∈ pre, parseBlock b' = none ∨ ∃ q, parseBlock b' = some (.ok q)) :
    processBlocks (pre ++ b :: post) = .error e := by
  induction pre with
  | nil =>
    rw [List.nil_append, processBlocks, hb]
  | cons b' pre ih =>
    have hrest := ih (fun x hx => hpre x (by simp [hx]))
    rw [List.cons_append, processBlocks]
    rcases hpre b' (by simp) with h' | ⟨q, h'⟩
    · rw [h']; exact hrest
    · rw [h', hrest]; rfl

/-- C1: parsing the well-formed single-question text yields exactly
one record: number 1, stem `"Stem line"`, the four options a-d in
order with no other keys, and answer `b`. -/
theorem parse_roundtrip_wellformed :
    parse_questions "1.\nStem line\na. Opt A\nb. Opt B\nc. Opt C\nd. Opt D\nANS: B" =
      .ok [⟨1, "Stem line",
        [('a', "Opt A"), ('b', "Opt B"), ('c', "Opt C"), ('d', "Opt D")], 'b'⟩] := by
  decide

/-- C2 counterexample: in `"1.\nX\nANS: A\n2.\nY"` the block
`"2.\nY"` matches the digits-period-newline shape and contains no
`ANS:` marker, yet the conversion fails with the bare `IndexError`
raised while processing block 1 (which has an answer but no option
markers), not with an error mentioning question number 2. -/
theorem parse_missing_ans_counterexample :
    ("2.\nY".data ∈ blocksOf "1.\nX\nANS: A\n2.\nY".data ∧
      matchNumDot (stripL "2.\nY".data) = some (2, "Y".data) ∧
      findAns "Y".data = none) ∧
    parse_questions "1.\nX\nANS: A\n2.\nY" = .error .indexError := by
  refine ⟨⟨?_, ?_, ?_⟩, ?_⟩ <;> decide

/-- C2 corrected: when some block of the split matches the
digits-period-newline shape and has no `ANS:` marker, and every
earlier block either is skipped or parses to a record (in particular
no earlier block hits the unguarded zero-option index error), the
whole conversion fails with the `ValueError` whose message names that
block's question number, and no record list is produced at all. -/
theorem parse_missing_ans_first_clean (text : String) (pre post : List (List Char))
    (b : List Char) (n : Nat) (body : List Char)
    (hsplit : blocksOf text.data = pre ++ b :: post)
    (hpre : ∀ b' ∈ pre, parseBlock b' = none ∨ ∃ q, parseBlock b' = some (.ok q))
    (hm : matchNumDot (stripL b) = some (n, body))
    (hans : findAns body = none) :
    parse_questions text = .error (.valueError ("Missing ANS for question " ++ toString n)) ∧
    (∃ s1 s2 : List Char,
      ("Missing ANS for question " ++ toString n).data = s1 ++ (toString n).data ++ s2) ∧
    ∀ qs, parse_questions text ≠ .ok qs := by
  have hb : parseBlock b =
      some (.error (.valueError ("Missing ANS for question " ++ toString n))) := by
    rw [parseBlock_of_match hm, parseBody_missing hans]
  have hmain : parse_questions text =
      .error (.valueError ("Missing ANS for question " ++ toString n)) := by
    unfold parse_questions
    rw [hsplit]
    exact processBlocks_append_error hb hpre
  refine ⟨hmain, ⟨"Missing ANS for question ".data, [], ?_⟩, ?_⟩
  · rw [String.data_append, List.append_nil]
  · intro qs hqs
    rw [hmain] at hqs
    exact Except.noConfusion hqs

/-- Witness for `parse_missing_ans_first_clean`: a two-block text
whose first block parses cleanly and whose second block has no
answer. -/
theorem parse_missing_ans_first_clean_witness :
    parse_questions "1.\nX\na. W\nANS: A\n2.\nY" =
      .error (.valueError ("Missing ANS for question " ++ toString 2)) :=
  (parse_missing_ans_first_clean "1.\nX\na. W\nANS: A\n2.\nY"
    [[], "1.\nX\na. W\nANS: A".data] [] "2.\nY".data 2 "Y".data
    (by decide)
    (by
      intro b' hb'
      rcases List.mem_cons.mp hb' with rfl | hb'
      · exact Or.inl (by decide)
      · rcases List.mem_cons.mp hb' with rfl | hb'
        · exact Or.inr ⟨⟨1, "X", [('a', "W")], 'a'⟩, by decide⟩
        · simp at hb')
    (by decide) (by decide)).1

/-- C3 counterexample: the block `"1.\nStem\nANS: A"` matches the
shape, has an `ANS:` marker, and has zero option-marker lines; the
parser does not return a degenerate record but aborts with the
`IndexError` from the unguarded `opts[0]` access. -/
theorem parse_no_options_counterexample :
    (matchNumDot (stripL "1.\nStem\nANS: A".data) = some (1, "Stem\nANS: A".data) ∧
      findAns "Stem\nANS: A".data = some 'A' ∧
      (scanOpts ('\n' :: truncAns "Stem\nANS: A".data)).2 = []) ∧
    parse_questions "1.\nStem\nANS: A" = .error .indexError := by
  refine ⟨⟨?_, ?_, ?_⟩, ?_⟩ <;> decide

/-- C3 corrected: a matched block that has an `ANS:` marker but zero
option-marker lines makes the whole conversion fail with the index
error from the unguarded `opts[0]` access (given that every earlier
block is skipped or parses to a record); no degenerate record is
produced. -/
theorem parse_no_options_index_error (text : String) (pre post : List (List Char))
    (b : List Char) (n : Nat) (body : List Char) (a : Char)
    (hsplit : blocksOf text.data = pre ++ b :: post)
    (hpre : ∀ b' ∈ pre, parseBlock b' = none ∨ ∃ q, parseBlock b' = some (.ok q))
    (hm : matchNumDot (stripL b) = some (n, body))
    (ha : findAns body = some a)
    (hopts : (scanOpts ('\n' :: truncAns body)).2 = []) :
    parse_questions text = .error .indexError ∧
    ∀ qs, parse_questions text ≠ .ok qs := by
  have hb : parseBlock b = some (.error .indexError) := by
    rw [parseBlock_of_match hm, parseBody_noOpts ha hopts]
  have hmain : parse_questions text = .error .indexError := by
    unfold parse_questions
    rw [hsplit]
    exact processBlocks_append_error hb hpre
  refine ⟨hmain, ?_⟩
  intro qs hqs
  rw [hmain] at hqs
  exact Except.noConfusion hqs

/-- Witness for `parse_no_options_index_error`. -/
theorem parse_no_options_index_error_witness :
    parse_questions "1.\nStem\nANS: A" = .error .indexError :=
  (parse_no_options_index_error "1.\nStem\nANS: A"
    [[]] [] "1.\nStem\nANS: A".data 1 "Stem\nANS: A".data 'A'
    (by decide)
    (by
      intro b' hb'
      rcases List.mem_cons.mp hb' with rfl | hb'
      · exact Or.inl (by decide)
      · simp at hb')
    (by decide) (by decide) (by decide)).1

lemma ansHere_upper {cs : List Char} {c : Char} (h : ansHere cs = some c) :
    65 ≤ c.toNat ∧ c.toNat ≤ 68 := by
  rcases cs with _ | ⟨c1, _ | ⟨c2, _ | ⟨c3, _ | ⟨c4, rest⟩⟩⟩⟩
  · exact absurd h (by simp [ansHere])
  · exact absurd h (by simp [ansHere])
  · exact absurd h (by simp [ansHere])
  · exact absurd h (by simp [ansHere])
  simp only [ansHere] at h
  by_cases hm : c1 = 'A' ∧ c2 = 'N' ∧ c3 = 'S' ∧ c4 = ':'
  · rw [if_pos hm] at h
    cases hh : (rest.dropWhile isPySpace).head? with
    | none => rw [hh] at h; exact absurd h (by simp)
    | some x =>
      rw [hh] at h
      have h' : (if 65 ≤ x.toNat ∧ x.toNat ≤ 68 then some x else none) = some c := h
      by_cases hx : 65 ≤ x.toNat ∧ x.toNat ≤ 68
      · rw [if_pos hx, Option.some.injEq] at h'
        subst h'; exact hx
      · rw [if_neg hx] at h'
        exact absurd h' (by simp)
  · rw [if_neg hm] at h
    exact absurd h (by simp)

lemma findAns_upper {body : List Char} {c : Char} (h : findAns body = some c) :
    65 ≤ c.toNat ∧ c.toNat ≤ 68 := by
  induction body with
  | nil => simp [findAns] at h
  | cons x rest ih =>
    rw [findAns] at h
    cases hah : ansHere (x :: rest) with
    | some a =>
      rw [hah] at h
      simp only [Option.some.injEq] at h
      subst h
      exact ansHere_upper hah
    | none =>
      rw [hah] at h
      exact ih h

/-- C4 counterexample: the body `"Stem\na. X\nANS: b"` contains the
marker `ANS:` followed by a space and the lowercase letter `b`, yet
the search accepts nothing (the character class is uppercase-only and
the pattern is compiled without `re.IGNORECASE`), so the conversion
fails with the missing-answer error instead of producing a record
with answer `b`. -/
theorem ans_lowercase_rejected_counterexample :
    ("Stem\na. X\nANS: b".data =
      "Stem\na. X\n".data ++ "ANS:".data ++ [' '] ++ ['b'] ∧
      findAns "Stem\na. X\nANS: b".data = none) ∧
    parse_questions "1.\nStem\na. X\nANS: b" =
      .error (.valueError "Missing ANS for question 1") := by
  refine ⟨⟨?_, ?_⟩, ?_⟩ <;> decide

/-- C4 corrected: the answer capture is uppercase-only, not
case-insensitive: a captured answer letter is always one of the
uppercase letters `A`-`D` (code points 65-68), and the record built
from a matched block stores that captured letter normalized to
lowercase. -/
theorem ans_uppercase_only_lowered :
    (∀ (body : List Char) (c : Char), findAns body = some c →
      65 ≤ c.toNat ∧ c.toNat ≤ 68) ∧
    (∀ (block : List Char) (r : MCQ), parseBlock block = some (.ok r) →
      ∃ n body c, matchNumDot (stripL block) = some (n, body) ∧
        findAns body = some c ∧ r.answer = c.toLower) := by
  constructor
  · exact fun body c h => findAns_upper h
  · intro block r h
    obtain ⟨n, body, hm, hok⟩ := parseBlock_ok_inv h
    obtain ⟨a, hfa, rfl⟩ := parseBody_ok_inv hok
    exact ⟨n, body, a, hm, hfa, rfl⟩

/-- Witness for `ans_uppercase_only_lowered` at a concrete body and a
concrete block. -/
theorem ans_uppercase_only_lowered_witness :
    (65 ≤ 'B'.toNat ∧ 'B'.toNat ≤ 68) ∧
    (∃ n body c, matchNumDot (stripL "1.\nS\na. X\nANS: B".data) = some (n, body) ∧
      findAns body = some c ∧ (⟨1, "S", [('a', "X")], 'b'⟩ : MCQ).answer = c.toLower) :=
  ⟨ans_uppercase_only_lowered.1 "ANS: B".data 'B' (by decide),
   ans_uppercase_only_lowered.2 "1.\nS\na. X\nANS: B".data
     ⟨1, "S", [('a', "X")], 'b'⟩ (by decide)⟩

lemma foldl_digits_eq_zero (ds : List Char) (hds : ∀ c ∈ ds, isDigitC c = true) :
    ∀ acc, (ds.foldl (fun n c => 10 * n + (c.toNat - 48)) acc = 0 ↔
      acc = 0 ∧ ∀ c ∈ ds, c.toNat = 48) := by
  induction ds with
  | nil => intro acc; simp
  | cons c ds ih =>
    intro acc
    have hc : isDigitC c = true := hds c (by simp)
    have h48 : 48 ≤ c.toNat := by
      simp only [isDigitC, Bool.and_eq_true, decide_eq_true_eq] at hc
      exact hc.1
    rw [List.foldl_cons, ih (fun x hx => hds x (by simp [hx]))]
    constructor
    · rintro ⟨h1, h2⟩
      have hsplit : acc = 0 ∧ c.toNat = 48 := by omega
      refine ⟨hsplit.1, fun x hx => ?_⟩
      rcases List.mem_cons.mp hx with rfl | hx
      · exact hsplit.2
      · exact h2 x hx
    · rintro ⟨rfl, h2⟩
      have hc48 : c.toNat = 48 := h2 c (by simp)
      exact ⟨by omega, fun x hx => h2 x (by simp [hx])⟩

lemma natOfDigits_pos_iff (ds : List Char) (hds : ∀ c ∈ ds, isDigitC c = true) :
    0 < natOfDigits ds ↔ ∃ c ∈ ds, c.toNat ≠ 48 := by
  rw [Nat.pos_iff_ne_zero]
  unfold natOfDigits
  rw [ne_eq, foldl_digits_eq_zero ds hds 0]
  push_neg
  simp

lemma matchNumDot_inv {cs : List Char} {n : Nat} {body : List Char}
    (h : matchNumDot cs = some (n, body)) :
    cs.takeWhile isDigitC ≠ [] ∧ n = natOfDigits (cs.takeWhile isDigitC) := by
  unfold matchNumDot at h
  cases hd : cs.drop (cs.takeWhile isDigitC).length with
  | nil => rw [hd] at h; simp at h
  | cons c1 rest =>
    cases rest with
    | nil => rw [hd] at h; simp at h
    | cons c2 body' =>
      rw [hd] at h
      have h' : (if cs.takeWhile isDigitC ≠ [] ∧ c1 = '.' ∧ c2 = '\n' then
          some (natOfDigits (cs.takeWhile isDigitC), body')
          else none) = some (n, body) := h
      by_cases hcond : cs.takeWhile isDigitC ≠ [] ∧ c1 = '.' ∧ c2 = '\n'
      · rw [if_pos hcond, Option.some.injEq, Prod.mk.injEq] at h'
        exact ⟨hcond.1, h'.1.symm⟩
      · rw [if_neg hcond] at h'
        exact absurd h' (by simp)

/-- C6 counterexample: the input `"0.\nStem\na. X\nANS: A"` parses to
a record whose number is 0, so the parser's records are not always
positive. -/
theorem question_number_zero_counterexample :
    parse_questions "0.\nStem\na. X\nANS: A" = .ok [⟨0, "Stem", [('a', "X")], 'a'⟩] ∧
    ¬ (∀ qs r, parse_questions "0.\nStem\na. X\nANS: A" = .ok qs → r ∈ qs → 1 ≤ r.num) := by
  constructor
  · decide
  · intro h
    have h0 := h [⟨0, "Stem", [('a', "X")], 'a'⟩] ⟨0, "Stem", [('a', "X")], 'a'⟩
      (by decide) (by simp)
    simp at h0

/-- C6 corrected: every record's number is the numeric value of the
digit label of the block it came from; it is positive exactly when
that label contains a digit other than `0` (code point 48), so a
block labelled `"0."` yields number 0 and positivity is not
guaranteed in general. -/
theorem question_number_from_digits (text : String) (qs : List MCQ) (r : MCQ)
    (hok : parse_questions text = .ok qs) (hr : r ∈ qs) :
    ∃ b ∈ blocksOf text.data, ∃ ds : List Char,
      ds = (stripL b).takeWhile isDigitC ∧ ds ≠ [] ∧
      (∀ c ∈ ds, isDigitC c = true) ∧ r.num = natOfDigits ds ∧
      (0 < r.num ↔ ∃ c ∈ ds, c.toNat ≠ 48) := by
  obtain ⟨b, hb, hpb⟩ := processBlocks_mem hok hr
  obtain ⟨n, body, hm, hokb⟩ := parseBlock_ok_inv hpb
  obtain ⟨a, -, rfl⟩ := parseBody_ok_inv hokb
  obtain ⟨hne, hval⟩ := matchNumDot_inv hm
  have hdig : ∀ c ∈ (stripL b).takeWhile isDigitC, isDigitC c = true :=
    fun c hc => List.mem_takeWhile_imp hc
  exact ⟨b, hb, (stripL b).takeWhile isDigitC, rfl, hne, hdig, hval,
    hval ▸ natOfDigits_pos_iff _ hdig⟩

/-- Witness for `question_number_from_digits`. -/
theorem question_number_from_digits_witness :
    ∃ b ∈ blocksOf "1.\nS\na. X\nANS: A".data, ∃ ds : List Char,
      ds = (stripL b).takeWhile isDigitC ∧ ds ≠ [] ∧
      (∀ c ∈ ds, isDigitC c = true) ∧
      (⟨1, "S", [('a', "X")], 'a'⟩ : MCQ).num = natOfDigits ds ∧
      (0 < (⟨1, "S", [('a', "X")], 'a'⟩ : MCQ).num ↔ ∃ c ∈ ds, c.toNat ≠ 48) :=
  question_number_from_digits "1.\nS\na. X\nANS: A" [⟨1, "S", [('a', "X")], 'a'⟩]
    ⟨1, "S", [('a', "X")], 'a'⟩ (by decide) (by simp)

/-! ### Lemmas about the options dict -/

/-- Python `options[k]` lookup on the association-list model. -/
def lookupOpt (d : List (Char × String)) (k : Char) : Option String :=
  (d.find? (fun p => p.1 == k)).map Prod.snd

lemma lookupOpt_dictInsert (k : Char) (v : String) (d : List (Char × String)) (k' : Char) :
    lookupOpt (dictInsert k v d) k' = if k = k' then some v else lookupOpt d k' := by
  induction d with
  | nil =>
    by_cases h : k = k'
    · subst h; simp [dictInsert, lookupOpt, List.find?]
    · unfold dictInsert lookupOpt
      rw [List.find?_cons_of_neg _ (by simpa using h)]
      simp [h]
  | cons p d ih =>
    by_cases hp : p.1 = k
    · rw [show dictInsert k v (p :: d) = (k, v) :: d by simp [dictInsert, hp]]
      by_cases h : k = k'
      · subst h
        simp [lookupOpt, List.find?_cons_of_pos]
      · rw [if_neg h]
        unfold lookupOpt
        rw [List.find?_cons_of_neg _ (by simpa using h),
          List.find?_cons_of_neg _ (by simpa [hp] using h)]
    · rw [show dictInsert k v (p :: d) = p :: dictInsert k v d by simp [dictInsert, hp]]
      by_cases hpk : p.1 = k'
      · have hkk : ¬ k = k' := fun he => hp (he ▸ hpk)
        rw [if_neg hkk]
        unfold lookupOpt
        rw [List.find?_cons_of_pos _ (by simpa using hpk),
          List.find?_cons_of_pos _ (by simpa using hpk)]
      · unfold lookupOpt
        rw [List.find?_cons_of_neg _ (by simpa using hpk)]
        rw [show ((p :: d).find? fun q => q.1 == k') = d.find? fun q => q.1 == k' from
          List.find?_cons_of_neg _ (by simpa using hpk)]
        exact ih

lemma lookupOpt_foldl_dictInsert (segs : List (Char × List Char)) :
    ∀ (d : List (Char × String)) (k : Char),
      lookupOpt (segs.foldl (fun d p => dictInsert p.1 (procOptVal p.2) d) d) k =
        ((segs.reverse.find? (fun p => p.1 == k)).map (fun p => procOptVal p.2)).or
          (lookupOpt d k) := by
  induction segs with
  | nil => intro d k; simp
  | cons s segs ih =>
    intro d k
    rw [List.foldl_cons, ih, List.reverse_cons, List.find?_append]
    cases hfind : segs.reverse.find? (fun p => p.1 == k) with
    | some p => simp
    | none =>
      simp only [Option.map_none, Option.none_or, Option.or_none]
      by_cases hs : s.1 = k
      · rw [List.find?_cons_of_pos _ (by simpa using hs)]
        rw [lookupOpt_dictInsert, if_pos hs]
        simp
      · rw [List.find?_cons_of_neg _ (by simpa using hs)]
        rw [lookupOpt_dictInsert, if_neg hs]
        simp

lemma keys_dictInsert_mem {k' k : Char} {v : String} {d : List (Char × String)}
    (h : k' ∈ (dictInsert k v d).map Prod.fst) :
    k' = k ∨ k' ∈ d.map Prod.fst := by
  induction d with
  | nil => simpa [dictInsert] using h
  | cons p d ih =>
    by_cases hp : p.1 = k
    · rw [show dictInsert k v (p :: d) = (k, v) :: d by simp [dictInsert, hp]] at h
      simp only [List.map_cons, List.mem_cons] at h
      rcases h with h | h
      · exact Or.inl h
      · exact Or.inr (by simp [h])
    · rw [show dictInsert k v (p :: d) = p :: dictInsert k v d by simp [dictInsert, hp]] at h
      simp only [List.map_cons, List.mem_cons] at h
      rcases h with h | h
      · exact Or.inr (by simp [h])
      · rcases ih h with h' | h'
        · exact Or.inl h'
        · exact Or.inr (by simp [h'])

lemma nodup_keys_dictInsert (k : Char) (v : String) (d : List (Char × String))
    (h : (d.map Prod.fst).Nodup) : ((dictInsert k v d).map Prod.fst).Nodup := by
  induction d with
  | nil => simp [dictInsert]
  | cons p d ih =>
    simp only [List.map_cons, List.nodup_cons] at h
    by_cases hp : p.1 = k
    · rw [show dictInsert k v (p :: d) = (k, v) :: d by simp [dictInsert, hp]]
      simp only [List.map_cons, List.nodup_cons]
      exact ⟨hp ▸ h.1, h.2⟩
    · rw [show dictInsert k v (p :: d) = p :: dictInsert k v d by simp [dictInsert, hp]]
      simp only [List.map_cons, List.nodup_cons]
      refine ⟨fun hc => ?_, ih h.2⟩
      rcases keys_dictInsert_mem hc with h' | h'
      · exact hp h'
      · exact h.1 h'

lemma nodup_keys_foldl (segs : List (Char × List Char)) :
    ∀ d : List (Char × String), (d.map Prod.fst).Nodup →
      ((segs.foldl (fun d p => dictInsert p.1 (procOptVal p.2) d) d).map Prod.fst).Nodup := by
  induction segs with
  | nil => intro d h; exact h
  | cons s segs ih =>
    intro d h
    rw [List.foldl_cons]
    exact ih _ (nodup_keys_dictInsert _ _ _ h)

/-- C10: when a record is built from a block body, its options
mapping has no duplicate keys, and each key is bound to the processed
text of the last option span carrying that letter in the scan (the
reverse-find), so an earlier span with the same letter is silently
overwritten; duplicate letters never make the parse of the block
fail. -/
theorem duplicate_option_last_wins (num : Nat) (body : List Char) (r : MCQ) (k : Char)
    (h : parseBody num body = .ok r) :
    (r.options.map Prod.fst).Nodup ∧
    lookupOpt r.options k =
      ((scanOpts ('\n' :: truncAns body)).2.reverse.find? (fun p => p.1 == k)).map
        (fun p => procOptVal p.2) := by
  obtain ⟨a, hfa, rfl⟩ := parseBody_ok_inv h
  constructor
  · exact nodup_keys_foldl _ [] (by simp)
  · show lookupOpt (buildOptions (scanOpts ('\n' :: truncAns body)).2) k = _
    unfold buildOptions
    rw [lookupOpt_foldl_dictInsert]
    cases hf : (scanOpts ('\n' :: truncAns body)).2.reverse.find? (fun p => p.1 == k) with
    | some p => simp
    | none => simp [lookupOpt]

/-- Witness for `duplicate_option_last_wins`: the block body
`"S\na. X\nb. Y\na. Z\nANS: A"` has two spans marked `a`; the record
binds `a` to the later span `"Z"`. -/
theorem duplicate_option_last_wins_witness :
    (((⟨1, "S", [('a', "Z"), ('b', "Y")], 'a'⟩ : MCQ).options.map Prod.fst).Nodup ∧
    lookupOpt (⟨1, "S", [('a', "Z"), ('b', "Y")], 'a'⟩ : MCQ).options 'a' =
      ((scanOpts ('\n' :: truncAns "S\na. X\nb. Y\na. Z\nANS: A".data)).2.reverse.find?
        (fun p => p.1 == 'a')).map (fun p => procOptVal p.2)) :=
  duplicate_option_last_wins 1 "S\na. X\nb. Y\na. Z\nANS: A".data
    ⟨1, "S", [('a', "Z"), ('b', "Y")], 'a'⟩ 'a' (by decide)

/-! ### Lemmas about the Markup Stripper -/

lemma matchStar_length {cs rest2 : List Char} (h : matchStar cs = some rest2) :
    rest2.length < cs.length := by
  rcases cs with _ | ⟨a, _ | ⟨b, _ | ⟨c, rest⟩⟩⟩
  · exact absurd h (by simp [matchStar])
  · exact absurd h (by simp [matchStar])
  · exact absurd h (by simp [matchStar])
  simp only [matchStar] at h
  by_cases hm : a = lbrace ∧ b = '\\' ∧ c = '*'
  · rw [if_pos hm] at h
    cases hd : rest.drop (rest.takeWhile (fun x => x != lbrace && x != rbrace)).length with
    | nil => rw [hd] at h; exact absurd h (by simp)
    | cons d r2 =>
      rw [hd] at h
      have h' : (if d = rbrace then some r2 else none) = some rest2 := h
      by_cases hdr : d = rbrace
      · rw [if_pos hdr, Option.some.injEq] at h'
        subst h'
        have hlen := congrArg List.length hd
        rw [List.length_drop] at hlen
        simp only [List.length_cons] at hlen ⊢
        omega
      · rw [if_neg hdr] at h'
        exact absurd h' (by simp)
  · rw [if_neg hm] at h
    exact absurd h (by simp)

lemma removeStarGroupsF_congr :
    ∀ (k : Nat) (cs : List Char) (n m : Nat), cs.length ≤ k →
      cs.length ≤ n → cs.length ≤ m →
      removeStarGroupsF n cs = removeStarGroupsF m cs := by
  intro k
  induction k with
  | zero =>
    intro cs n m hk _ _
    have : cs = [] := List.eq_nil_of_length_eq_zero (Nat.le_zero.mp hk)
    subst this
    cases n <;> cases m <;> rfl
  | succ k ih =>
    intro cs n m hk hn hm
    cases cs with
    | nil => cases n <;> cases m <;> rfl
    | cons c rest =>
      simp only [List.length_cons] at hk hn hm
      obtain ⟨n', rfl⟩ : ∃ n', n = n' + 1 := ⟨n - 1, by omega⟩
      obtain ⟨m', rfl⟩ : ∃ m', m = m' + 1 := ⟨m - 1, by omega⟩
      rw [removeStarGroupsF, removeStarGroupsF]
      cases hms : matchStar (c :: rest) with
      | some rest2 =>
        have hlt := matchStar_length hms
        simp only [List.length_cons] at hlt
        exact ih rest2 n' m' (by omega) (by omega) (by omega)
      | none =>
        rw [ih rest n' m' (by omega) (by omega) (by omega)]

lemma takeWhile_append_stop (p : Char → Bool) (l1 : List Char) (y : Char)
    (l2 : List Char) (h1 : ∀ x ∈ l1, p x = true) (h2 : p y = false) :
    (l1 ++ y :: l2).takeWhile p = l1 := by
  induction l1 with
  | nil => simp [List.takeWhile_cons, h2]
  | cons x l1 ih =>
    rw [List.cons_append, List.takeWhile_cons, h1 x (by simp)]
    rw [ih (fun z hz => h1 z (by simp [hz]))]
    simp

lemma matchStar_flat (inner rest : List Char)
    (h : ∀ x ∈ inner, x ≠ lbrace ∧ x ≠ rbrace) :
    matchStar (lbrace :: '\\' :: '*' :: (inner ++ rbrace :: rest)) = some rest := by
  have htw : (inner ++ rbrace :: rest).takeWhile (fun x => x != lbrace && x != rbrace) =
      inner := by
    apply takeWhile_append_stop
    · intro x hx
      simp only [Bool.and_eq_true, bne_iff_ne, ne_eq]
      exact ⟨(h x hx).1, (h x hx).2⟩
    · simp
  have hdrop : (inner ++ rbrace :: rest).drop
      ((inner ++ rbrace :: rest).takeWhile (fun x => x != lbrace && x != rbrace)).length =
      rbrace :: rest := by
    rw [htw]; exact List.drop_left inner (rbrace :: rest)
  show (match (inner ++ rbrace :: rest).drop
      ((inner ++ rbrace :: rest).takeWhile (fun x => x != lbrace && x != rbrace)).length with
    | d :: rest2 => if d = rbrace then some rest2 else none
    | [] => none) = some rest
  rw [hdrop]
  show (if rbrace = rbrace then some rest else none) = some rest
  rw [if_pos rfl]

/-- C5 counterexample: for the document
`"{\rtf1 {\*\fonttbl{\f0 Arial}} Hello}"` the backslash-star group
contains one level of nested braces; step 4 does not match it, and
the stripper's final output still contains `"Arial"`, a part of that
group (the whole output is `"\*Arial Hello"`). -/
theorem star_group_nested_leak_counterexample :
    rtf_to_text "\x7b\\rtf1 \x7b\\*\\fonttbl\x7b\\f0 Arial\x7d\x7d Hello\x7d" =
      "\\*Arial Hello" ∧
    containsSub "Arial".data
      (rtf_to_text "\x7b\\rtf1 \x7b\\*\\fonttbl\x7b\\f0 Arial\x7d\x7d Hello\x7d").data = true := by
  constructor <;> decide

/-- C5 corrected: step 4 removes, in its entirety, every
backslash-star group whose content contains no brace: at the head of
the input, such a group is deleted and removal continues with the
remainder.  Groups with nested braces are not matched by the step-4
pattern (see the counterexample, where the group's content survives
to the final output). -/
theorem star_group_flat_removed (inner rest : List Char)
    (h : ∀ x ∈ inner, x ≠ lbrace ∧ x ≠ rbrace) :
    removeStarGroups (lbrace :: '\\' :: '*' :: (inner ++ rbrace :: rest)) =
      removeStarGroups rest := by
  unfold removeStarGroups
  rw [show (lbrace :: '\\' :: '*' :: (inner ++ rbrace :: rest)).length =
      ((inner ++ rbrace :: rest).length + 2) + 1 by simp]
  rw [removeStarGroupsF]
  simp only [matchStar_flat inner rest h]
  apply removeStarGroupsF_congr (rest.length + inner.length + 3) rest
  · omega
  · simp only [List.length_append, List.length_cons]
    omega
  · exact Nat.le_refl _

/-- Witness for `star_group_flat_removed`: a brace-free group is
removed whole. -/
theorem star_group_flat_removed_witness :
    removeStarGroups (lbrace :: '\\' :: '*' :: ("\\generator Riched20".data ++
      rbrace :: " Body".data)) = removeStarGroups " Body".data :=
  star_group_flat_removed "\\generator Riched20".data " Body".data (by decide)

/-- C8: for records numbered 1, 3, 2 in that appearance order, the
item files are `items/Q001.xml`, `items/Q003.xml`, `items/Q002.xml`
in that order, and the test document references them in the same
order — numeric order is not imposed. -/
theorem writer_preserves_appearance_order :
    write_item_files [⟨1, "s1", [('a', "X")], 'a'⟩, ⟨3, "s3", [('a', "X")], 'a'⟩,
        ⟨2, "s2", [('a', "X")], 'a'⟩] =
      ["items/Q001.xml", "items/Q003.xml", "items/Q002.xml"] ∧
    test_xml [⟨1, "s1", [('a', "X")], 'a'⟩, ⟨3, "s3", [('a', "X")], 'a'⟩,
        ⟨2, "s2", [('a', "X")], 'a'⟩] "T" =
      ["<?xml version=\"1.0\" encoding=\"UTF-8\"?>",
       "<assessmentTest xmlns=\"http://www.imsglobal.org/xsd/imsqti_v2p1\" identifier=\"TEST1\" title=\"T\">",
       "  <testPart identifier=\"part1\" navigationMode=\"linear\" submissionMode=\"individual\">",
       "    <assessmentSection identifier=\"section1\" visible=\"true\">",
       "      <assessmentItemRef href=\"items/Q001.xml\"/>",
       "      <assessmentItemRef href=\"items/Q003.xml\"/>",
       "      <assessmentItemRef href=\"items/Q002.xml\"/>",
       "    </assessmentSection>",
       "  </testPart>",
       "</assessmentTest>"] := by
  constructor <;> decide

/-- C9: option text is escaped for ampersand and angle brackets but
not for quotes: `"A & B < C"` renders in the item document's
`simpleChoice` line as `"A &amp; B &lt; C"`, and a double quote
passes through unescaped. -/
theorem esc_option_escaping :
    esc "A & B < C" = "A &amp; B &lt; C" ∧
    choiceLine ('a', "A & B < C") =
      "      <simpleChoice identifier=\"CHOICE_A\">A &amp; B &lt; C</simpleChoice>" ∧
    ("      <simpleChoice identifier=\"CHOICE_A\">A &amp; B &lt; C</simpleChoice>" ∈
      item_xml ⟨1, "S", [('a', "A & B < C")], 'a'⟩) ∧
    esc "he said \"hi\"" = "he said \"hi\"" := by
  refine ⟨?_, ?_, ?_, ?_⟩ <;> decide

end RTFQTI
